import Mathlib

/-!
Verification development for the Chatbase conversations analyzer
(`src/app.py`).  The Python source operates on an in-memory JSON document
and pandas DataFrames; here the data model and the five core routines
(`process_conversations`, `get_daily_metrics`, `get_country_metrics`,
`analyze_question_category`, `analyze_batch_questions`,
`get_category_metrics`) are embedded shallowly:

* JSON dictionaries with possibly-missing keys become structures with
  `Option` fields; `d[k]` access on a missing key becomes the
  `PyErr.keyError` result, `d.get(k)` becomes reading the `Option`.
* Python exceptions become `Except PyErr`; an escaping exception means no
  partial result is returned, matching the all-or-nothing behaviour of the
  Python functions.
* pandas DataFrames become a `Frame`: an explicit column-name list (so
  that missing-column `KeyError`s are representable, as with
  `pd.DataFrame([])` which has no columns) plus a list of records.
  In-place column assignment (`df['Date'] = ...`) is modelled by returning
  the updated frame alongside the derived table.
* `groupby(key)` (pandas default `sort=True`) produces one group per
  distinct key, keys in ascending order; `count` counts non-null entries
  and `nunique` counts distinct entries, as in pandas.
* `sort_values(col, ascending=False)` is modelled as the reverse of a
  stable ascending sort, following pandas `nargsort`, which computes an
  ascending `argsort` and reverses the resulting indexer.
* Python `float` arithmetic is idealized as `ℚ`; `round(x, 2)` is
  round-half-to-even at two decimals, and `str()` of such a float is its
  shortest decimal form (trailing zeros dropped, at least one decimal
  digit), as produced by `repr` of a Python float.
* `str.lower()` is modelled as ASCII lowercasing (all strings the
  classifier compares against are ASCII).
-/

/-! ## Python-style primitives -/

/-- Boolean prefix test on character lists. -/
def chPre : List Char → List Char → Bool
  | [], _ => true
  | _ :: _, [] => false
  | n :: ns, h :: hs => n == h && chPre ns hs

/-- Boolean infix (contiguous substring) test on character lists. -/
def chInf (needle : List Char) : List Char → Bool
  | [] => chPre needle []
  | h :: hs => chPre needle (h :: hs) || chInf needle hs

/-- Python `needle in haystack` for strings: contiguous substring test. -/
def pyIn (needle haystack : String) : Bool :=
  chInf needle.toList haystack.toList

/-- Python `str.lower()` (ASCII model; every keyword compared against in
the source is ASCII). -/
def pyLower (s : String) : String := String.mk (s.toList.map Char.toLower)

/-! ## Question classifier (`analyze_question_category`, app.py:80-98)

The source wraps the function in a `tenacity` retry decorator; the
function is pure and total over strings, so the decorator never activates
and is not part of the model. -/

/-- Keyword list of the definitional check (app.py:86,93). -/
def defineWords : List String := ["what is", "what's", "define", "explain", "describe"]

/-- Keyword list of the how-to check (app.py:88,95). -/
def howtoWords : List String := ["how to", "how do", "guide", "steps", "process"]

/-- `analyze_question_category` (app.py:81-98): ordered case-insensitive
keyword checks, first match wins. -/
def analyze_question_category (question : String) : String :=
  let q := pyLower question
  if pyIn "atlan" q then
    if defineWords.any (fun w => pyIn w q) then "What is / Define (Branded)"
    else if howtoWords.any (fun w => pyIn w q) then "FAQ / How to (Branded)"
    else "Branded"
  else if defineWords.any (fun w => pyIn w q) then "What is / Define (Non branded)"
  else if howtoWords.any (fun w => pyIn w q) then "FAQ / How to Type (Non branded)"
  else "Others"

/-- The six labels the classifier can produce. -/
def categoryLabels : List String :=
  ["What is / Define (Branded)", "FAQ / How to (Branded)", "Branded",
   "What is / Define (Non branded)", "FAQ / How to Type (Non branded)", "Others"]

/-! ## Batch driver (`analyze_batch_questions`, app.py:100-108)

The Python generator yields one `(progress, processed, all_categories)`
tuple per chunk of at most `batch_size` questions.  The embedding returns
the finite list of yielded tuples.  `progress` is a Python float computed
as `min((i + batch_size) / len(questions), 1.0)`, idealized as `ℚ`.
Python `range(0, n, 0)` raises `ValueError`; a zero `batch_size` is
outside every claim and the model returns no yields for it. -/

/-- One iteration of the generator loop: `i` is the chunk start index,
`acc` is `all_categories` accumulated so far.  `fuel` only bounds the
recursion depth structurally: each iteration advances `i` by
`batch_size ≥ 1`, so any `fuel ≥ questions.length - i` (in particular
`questions.length` at the top) is enough for the loop to run to its
`range`-exhausted end exactly as in Python. -/
def batchLoop (questions : List String) (batch_size : ℕ) :
    ℕ → ℕ → List String → List (ℚ × ℕ × List String)
  | 0, _, _ => []
  | fuel + 1, i, acc =>
    if 0 < batch_size ∧ i < questions.length then
      let batch := (questions.drop i).take batch_size
      let acc2 := acc ++ batch.map analyze_question_category
      (min (((i : ℚ) + batch_size) / questions.length) 1,
        i + min batch_size (questions.length - i),
        acc2) :: batchLoop questions batch_size fuel (i + batch_size) acc2
    else []

/-- `analyze_batch_questions` (app.py:100-108) as the list of yielded
tuples. -/
def analyze_batch_questions (questions : List String) (batch_size : ℕ := 250) :
    List (ℚ × ℕ × List String) :=
  batchLoop questions batch_size questions.length 0 []

/-! ## Input data model

JSON dictionaries with possibly missing keys.  `d['k']` access raises
`KeyError` when the key is absent; `d.get('k')` and `d.get('k', dflt)`
read the `Option`. -/

/-- A chat message.  Only `role`, `type`, `content`, `score` are consulted
by the source, all via `.get`. -/
structure Message where
  role : Option String
  type : Option String
  content : Option String
  score : Option ℚ
deriving DecidableEq

/-- One conversation record of the input document. -/
structure RawConv where
  created_at : Option String
  country : Option String
  messages : Option (List Message)
deriving DecidableEq

/-- The root input document. -/
structure RawDoc where
  conversations : Option (List RawConv)
deriving DecidableEq

/-- Python exceptions that the modelled code can raise. -/
inductive PyErr
  | keyError
  | valueError
  | attributeError
deriving DecidableEq

/-- The `Score` cell of a row: a number, or the sentinel string `"N/A"`. -/
inductive ScoreVal
  | na
  | val (q : ℚ)
deriving DecidableEq

/-- A row of the flat conversation-details table.  `date` and `category`
model the columns added in place by `get_daily_metrics` and
`get_category_metrics`; the flattener leaves them `none`. -/
structure QRow where
  sno : ℕ
  askedAt : String
  country : String
  question : Option String
  answer : Option String
  score : ScoreVal
  date : Option ℕ
  category : Option String
deriving DecidableEq

/-- A pandas DataFrame: explicit column list plus records.
`pd.DataFrame([])` has no columns, so the column list is data, not shape. -/
structure Frame where
  cols : List String
  rows : List QRow
deriving DecidableEq

/-- Columns of a non-empty flat table, in dict-key order (app.py:32-39). -/
def stdCols : List String :=
  ["S.No", "Asked at", "Country", "User Question", "Assistant Response", "Score"]

/-! ## Timestamp parsing (`datetime.strptime(s, "%Y-%m-%dT%H:%M:%S.%f")`)

CPython `_strptime` compiles the format to a regex (with `re.IGNORECASE`,
so the literal `T` also matches `t`) and requires the whole string to be
consumed; the `datetime` constructor then validates the calendar date and
`MINYEAR = 1`.  Field patterns, with their backtracking alternation order:
`%Y` = four digits, `%m` = `1[0-2]|0[1-9]|[1-9]`,
`%d` = `3[01]|[12]\d|0[1-9]|[1-9]`, `%H` = `2[0-3]|[0-1]\d|\d`,
`%M`,`%S` = `[0-5]\d|\d`, `%f` = one to six digits, right-padded with
zeros to microseconds. -/

/-- Decimal digit value of a character, if it is a digit. -/
def digitVal? (c : Char) : Option ℕ :=
  if c.isDigit then some (c.toNat - 48) else none

/-- Four mandatory digits (`%Y`). -/
def parse4 (a b c d : Char) : Option ℕ := do
  let x ← digitVal? a
  let y ← digitVal? b
  let z ← digitVal? c
  let w ← digitVal? d
  pure (1000 * x + 100 * y + 10 * z + w)

/-- Candidates for a one-or-two-digit numeric field, in regex alternation
order: the two-digit forms (validated by `ok2` on the two digit values)
come before the one-digit form (validated by `ok1`).  Returns each
candidate with the unconsumed rest, for backtracking. -/
def numCands (ok2 : ℕ → ℕ → Bool) (ok1 : ℕ → Bool) :
    List Char → List (ℕ × List Char)
  | a :: b :: rest =>
    (match digitVal? a, digitVal? b with
     | some x, some y => if ok2 x y then [(10 * x + y, rest)] else []
     | _, _ => []) ++
    (match digitVal? a with
     | some x => if ok1 x then [(x, b :: rest)] else []
     | none => [])
  | [a] =>
    (match digitVal? a with
     | some x => if ok1 x then [(x, [])] else []
     | none => [])
  | [] => []

/-- `%f`: the remainder must be one to six digits (the pattern is greedy
and the whole string must be consumed), right-padded to microseconds. -/
def fracVal (cs : List Char) : Option ℕ :=
  match cs.mapM digitVal? with
  | some xs =>
    if 1 ≤ xs.length && xs.length ≤ 6 then
      some ((xs.foldl (fun a d => 10 * a + d) 0) * 10 ^ (6 - xs.length))
    else none
  | none => none

/-- Gregorian leap year, as in `calendar.isleap`. -/
def isLeapYear (y : ℕ) : Bool :=
  y % 4 == 0 && (y % 100 != 0 || y % 400 == 0)

/-- Days in a month, used by the `datetime` constructor's validation. -/
def daysInMonth (y m : ℕ) : ℕ :=
  if m == 2 then (if isLeapYear y then 29 else 28)
  else if m == 4 || m == 6 || m == 9 || m == 11 then 30
  else 31

/-- A parsed `datetime` value. -/
structure Timestamp where
  year : ℕ
  month : ℕ
  day : ℕ
  hour : ℕ
  minute : ℕ
  second : ℕ
  micro : ℕ
deriving DecidableEq

/-- `datetime.strptime(s, "%Y-%m-%dT%H:%M:%S.%f")` (app.py:16):
`none` models the `ValueError` raised on non-matching input. -/
def parseTimestamp (s : String) : Option Timestamp :=
  match s.toList with
  | a :: b :: c :: d :: '-' :: r1 => do
    let y ← parse4 a b c d
    (numCands (fun x y => (x == 1 && y ≤ 2) || (x == 0 && 1 ≤ y)) (fun x => 1 ≤ x) r1).findSome?
      fun (mo, r2) =>
      match r2 with
      | '-' :: r3 =>
        (numCands (fun x y => (x == 3 && y ≤ 1) || x == 1 || x == 2 || (x == 0 && 1 ≤ y))
            (fun x => 1 ≤ x) r3).findSome? fun (dy, r4) =>
          match r4 with
          | t :: r5 =>
            if t == 'T' || t == 't' then
              (numCands (fun x y => (x == 2 && y ≤ 3) || x ≤ 1) (fun _ => true) r5).findSome?
                fun (hh, r6) =>
                match r6 with
                | ':' :: r7 =>
                  (numCands (fun x _ => x ≤ 5) (fun _ => true) r7).findSome? fun (mi, r8) =>
                    match r8 with
                    | ':' :: r9 =>
                      (numCands (fun x _ => x ≤ 5) (fun _ => true) r9).findSome? fun (se, r10) =>
                        match r10 with
                        | '.' :: r11 =>
                          match fracVal r11 with
                          | some f =>
                            if 1 ≤ y && dy ≤ daysInMonth y mo then
                              some ⟨y, mo, dy, hh, mi, se, f⟩
                            else none
                          | none => none
                        | _ => none
                    | _ => none
                | _ => none
            else none
          | [] => none
      | _ => none
  | _ => none

/-- `conversation['created_at'].split('+')[0]` (app.py:16): everything
before the first `+`. -/
def stripPlus (s : String) : String :=
  String.mk (s.toList.takeWhile (fun c => c != '+'))

/-! ## Timestamp formatting (`strftime("%B %d, %Y %H:%M:%S")`, app.py:17) -/

/-- `%B`: full month name. -/
def monthName : ℕ → String
  | 1 => "January"
  | 2 => "February"
  | 3 => "March"
  | 4 => "April"
  | 5 => "May"
  | 6 => "June"
  | 7 => "July"
  | 8 => "August"
  | 9 => "September"
  | 10 => "October"
  | 11 => "November"
  | 12 => "December"
  | _ => ""

/-- Two-digit zero padding (`%d`, `%H`, `%M`, `%S`). -/
def pad2 (n : ℕ) : String :=
  if n < 10 then "0" ++ toString n else toString n

/-- `created_at.strftime("%B %d, %Y %H:%M:%S")` — microseconds dropped.
(glibc `%Y` does not zero-pad; the year always comes from a four-digit
field here, so values below 1000 would have parsed from e.g. `0999`.) -/
def formatTimestamp (t : Timestamp) : String :=
  monthName t.month ++ " " ++ pad2 t.day ++ ", " ++ toString t.year ++ " " ++
    pad2 t.hour ++ ":" ++ pad2 t.minute ++ ":" ++ pad2 t.second

/-! ## Conversation flattener (`process_conversations`, app.py:11-41) -/

/-- `message.get('role') == 'assistant' and message.get('type') == 'text'`
(app.py:24). -/
def isAssistantText (m : Message) : Bool :=
  m.role == some "assistant" && m.type == some "text"

/-- `message.get('role') == 'user'` (app.py:30). -/
def isUserMsg (m : Message) : Bool :=
  m.role == some "user"

/-- `message.get('score', "N/A")` (app.py:26). -/
def scoreOfMsg (m : Message) : ScoreVal :=
  match m.score with
  | some q => .val q
  | none => .na

/-- First message scan (app.py:22-26): the running
`(last_assistant_response, last_assistant_score)` pair, starting from
`(None, "N/A")` and overwritten at every assistant text message. -/
def lastAssistantPair (msgs : List Message) : Option String × ScoreVal :=
  msgs.foldl (fun acc m => if isAssistantText m then (m.content, scoreOfMsg m) else acc)
    (none, .na)

/-- Second message scan (app.py:28-39): one row per user message.  `off`
is `len(conversation_details)` so far; `conversation['country']` is only
evaluated when a row is actually built, hence a missing `country` key
raises only if a user message exists. -/
def emitRows (country? : Option String) (formattedDate : String) (ans : Option String)
    (sc : ScoreVal) : List Message → ℕ → Except PyErr (List QRow)
  | [], _ => .ok []
  | m :: ms, off =>
    if isUserMsg m then
      match country? with
      | none => .error .keyError
      | some co =>
        match emitRows country? formattedDate ans sc ms (off + 1) with
        | .error e => .error e
        | .ok rest =>
          .ok ({ sno := off + 1, askedAt := formattedDate, country := co,
                 question := m.content, answer := ans, score := sc,
                 date := none, category := none } :: rest)
    else emitRows country? formattedDate ans sc ms off

/-- Body of the `for conversation in data['conversations']` loop
(app.py:14-39) for a single conversation, given `off` rows already
emitted. -/
def processConv (c : RawConv) (off : ℕ) : Except PyErr (List QRow) :=
  match c.created_at with
  | none => .error .keyError
  | some ca =>
    match parseTimestamp (stripPlus ca) with
    | none => .error .valueError
    | some ts =>
      match c.messages with
      | none => .error .keyError
      | some msgs =>
        emitRows c.country (formatTimestamp ts) (lastAssistantPair msgs).1
          (lastAssistantPair msgs).2 msgs off

/-- The conversation loop over the whole list. -/
def processConvs : List RawConv → ℕ → Except PyErr (List QRow)
  | [], _ => .ok []
  | c :: cs, off =>
    match processConv c off with
    | .error e => .error e
    | .ok rs =>
      match processConvs cs (off + rs.length) with
      | .error e => .error e
      | .ok rest => .ok (rs ++ rest)

/-- `process_conversations` (app.py:11-41).  `pd.DataFrame(records)` takes
its columns from the record keys, and has no columns at all when the
record list is empty. -/
def process_conversations (data : RawDoc) : Except PyErr Frame :=
  match data.conversations with
  | none => .error .keyError
  | some cs =>
    match processConvs cs 0 with
    | .error e => .error e
    | .ok rows => .ok { cols := if rows.isEmpty then [] else stdCols, rows := rows }

/-! ## pandas sorting and numeric primitives -/

/-- Lexicographic less-or-equal on character lists, by code point. -/
def chLe : List Char → List Char → Bool
  | [], _ => true
  | _ :: _, [] => false
  | a :: as, b :: bs =>
    if a.val < b.val then true
    else if b.val < a.val then false
    else chLe as bs

/-- Boolean string order (pandas sorts object keys with Python `<`,
lexicographic by code point). -/
def strLe (a b : String) : Bool := chLe a.toList b.toList

/-- `sort_values(col, ascending=False)`: pandas `nargsort` computes an
ascending `argsort` and reverses the whole indexer, so the descending
order is the reverse of the ascending (stable) order; `insertionSort` is
the stable ascending sort. -/
def sortValsDesc {α : Type} (r : α → α → Prop) [DecidableRel r] (l : List α) : List α :=
  (l.insertionSort r).reverse

/-- `str()` of a non-negative Python float that is (after `round(x, 2)`) a
multiple of `0.01`, given as `k` hundredths: shortest decimal repr, i.e.
trailing zeros dropped but at least one decimal digit ("100.0", "12.5",
"33.33", "6.07"). -/
def hundredthsStr (k : ℕ) : String :=
  let ip := k / 100
  let fr := k % 100
  if fr == 0 then toString ip ++ ".0"
  else if fr % 10 == 0 then toString ip ++ "." ++ toString (fr / 10)
  else if fr < 10 then toString ip ++ ".0" ++ toString fr
  else toString ip ++ "." ++ toString fr

/-- Hundredths of `round(cnt / total * 100, 2)` (app.py:127): the value
rounded is `cnt / total * 100 = (10000 * cnt / total) / 100` hundredths,
so this is `10000 * cnt / total` rounded half-to-even (Python/numpy
rounding) to an integer, computed exactly in integer arithmetic: with
`q`, `r` the quotient and remainder, the fractional part `r / total`
compares to `1 / 2` as `2 * r` compares to `total`. -/
def pctHundredths (cnt total : ℕ) : ℕ :=
  let num := 10000 * cnt
  let q := num / total
  let r := num % total
  if 2 * r < total then q
  else if total < 2 * r then q + 1
  else if q % 2 = 0 then q else q + 1

/-- `str(round(cnt / total * 100, 2)) + '%'` (app.py:127-128). -/
def pctString (cnt total : ℕ) : String :=
  hundredthsStr (pctHundredths cnt total) ++ "%"

/-! ## Country aggregator (`get_country_metrics`, app.py:63-71) -/

/-- A row of the country metrics table. -/
structure CountryRow where
  country : String
  questions : ℕ
  users : ℕ
deriving DecidableEq

/-- `get_country_metrics` (app.py:63-71).  `groupby('Country')` (default
`sort=True`) produces one group per distinct country, keys ascending;
`count` counts non-null `User Question` cells, `nunique` counts distinct
`Asked at` values.  The source never assigns into `df`, so the input
frame is returned unchanged alongside the table. -/
def get_country_metrics (f : Frame) : Except PyErr (List CountryRow × Frame) :=
  if "Country" ∈ f.cols then
    if "User Question" ∈ f.cols ∧ "Asked at" ∈ f.cols then
      let keys := ((f.rows.map (fun r => r.country)).dedup).insertionSort
        (fun a b => strLe a b = true)
      let tbl := keys.map (fun k =>
        let g := f.rows.filter (fun r => r.country == k)
        { country := k,
          questions := g.countP (fun r => r.question.isSome),
          users := ((g.map (fun r => r.askedAt)).dedup).length })
      .ok (sortValsDesc (fun a b => a.questions ≤ b.questions) tbl, f)
    else .error .keyError
  else .error .keyError

/-! ## Daily aggregator (`get_daily_metrics`, app.py:43-61) -/

/-- A row of the daily metrics table; the date is encoded as
`y * 10000 + m * 100 + d`, which orders chronologically. -/
structure DailyRow where
  date : ℕ
  questions : ℕ
  users : ℕ
deriving DecidableEq

/-- Two mandatory digits. -/
def parse2dig (a b : Char) : Option ℕ := do
  let x ← digitVal? a
  let y ← digitVal? b
  pure (10 * x + y)

/-- `pd.to_datetime` applied to an `Asked at` cell.  The flattener only
ever emits `"%B %d, %Y %H:%M:%S"` strings, and that is the shape parsed
here; anything else is a parse failure (pandas would raise). -/
def parseAskedAt (s : String) : Option Timestamp :=
  (List.range 12).findSome? (fun i =>
    let name := (monthName (i + 1)).toList
    if chPre name s.toList then
      match s.toList.drop name.length with
      | ' ' :: d1 :: d2 :: ',' :: ' ' :: y1 :: y2 :: y3 :: y4 :: ' ' ::
          h1 :: h2 :: ':' :: m1 :: m2 :: ':' :: x1 :: x2 :: [] => do
        let dy ← parse2dig d1 d2
        let y ← parse4 y1 y2 y3 y4
        let hh ← parse2dig h1 h2
        let mi ← parse2dig m1 m2
        let se ← parse2dig x1 x2
        if 1 ≤ y && 1 ≤ dy && dy ≤ daysInMonth y (i + 1) && hh ≤ 23 && mi ≤ 59 && se ≤ 59 then
          some ⟨y, i + 1, dy, hh, mi, se, 0⟩
        else none
      | _ => none
    else none)

/-- `.dt.date` truncation, encoded as a sortable number. -/
def dateKey (t : Timestamp) : ℕ :=
  t.year * 10000 + t.month * 100 + t.day

/-- `get_daily_metrics` (app.py:43-61).  `df['Date'] = ...` (app.py:45)
assigns into the caller's frame: the returned frame carries the added
`Date` column.  The two `groupby('Date')` aggregations share their key
set, so the final `pd.merge` on `Date` pairs them key by key in ascending
key order. -/
def get_daily_metrics (f : Frame) : Except PyErr (List DailyRow × Frame) :=
  if "Asked at" ∈ f.cols then
    match f.rows.mapM (fun r => (parseAskedAt r.askedAt).map dateKey) with
    | none => .error .valueError
    | some ds =>
      let rows2 := (f.rows.zip ds).map (fun p => { p.1 with date := some p.2 })
      let cols2 := if "Date" ∈ f.cols then f.cols else f.cols ++ ["Date"]
      let f2 : Frame := { cols := cols2, rows := rows2 }
      if "User Question" ∈ cols2 ∧ "Country" ∈ cols2 then
        let keys := ds.dedup.insertionSort (fun a b => a ≤ b)
        let daily := keys.map (fun k =>
          let g := (f.rows.zip ds).filter (fun p => p.2 == k)
          { date := k,
            questions := g.countP (fun p => p.1.question.isSome),
            users := ((g.map (fun p => p.1.country)).dedup).length })
        .ok (daily, f2)
      else .error .keyError
  else .error .keyError

/-! ## Category aggregator (`get_category_metrics`, app.py:110-130) -/

/-- A row of the category summary table. -/
structure CatRow where
  category : String
  count : ℕ
  percentage : String
deriving DecidableEq

/-- Column list after `df['Category'] = ...`. -/
def catColsAfter (cols : List String) : List String :=
  if "Category" ∈ cols then cols else cols ++ ["Category"]

/-- `df['Category'] = final_categories` (app.py:124): the caller's rows
with the category column filled in positionally. -/
def catRows2 (rows : List QRow) (cats : List String) : List QRow :=
  (rows.zip cats).map (fun p => { p.1 with category := some p.2 })

/-- Group keys of `groupby('Category')`: distinct categories, ascending. -/
def catKeys (cats : List String) : List String :=
  cats.dedup.insertionSort (fun a b => strLe a b = true)

/-- `groupby('Category')['User Question'].count()` (app.py:126): per
category, the count of non-null `User Question` cells. -/
def catTbl (rows : List QRow) (cats : List String) : List (String × ℕ) :=
  (catKeys cats).map (fun k =>
    (k, ((catRows2 rows cats).filter (fun r => r.category == some k)).countP
      (fun r => r.question.isSome)))

/-- `category_metrics['Count'].sum()` (app.py:127). -/
def catTotal (rows : List QRow) (cats : List String) : ℕ :=
  ((catTbl rows cats).map (fun p => p.2)).sum

/-- The category summary table: percentage strings computed against the
`Count` sum, then `sort_values('Count', ascending=False)`
(app.py:126-129). -/
def catMetricsOf (rows : List QRow) (cats : List String) : List CatRow :=
  sortValsDesc (fun a b => a.count ≤ b.count)
    ((catTbl rows cats).map (fun p =>
      { category := p.1, count := p.2, percentage := pctString p.2 (catTotal rows cats) }))

/-- `get_category_metrics` (app.py:110-130).  `df['User Question'].tolist()`
requires the column; classifying a `None` question raises
`AttributeError` (`None.lower()`).  The loop over
`analyze_batch_questions` keeps only the last yielded category list
(`None` if nothing was yielded, i.e. the frame was empty).
`df['Category'] = final_categories` assigns into the caller's frame. -/
def get_category_metrics (f : Frame) : Except PyErr (List CatRow × Frame) :=
  if "User Question" ∈ f.cols then
    if f.rows.any (fun r => r.question.isNone) then .error .attributeError
    else
      let qs := f.rows.filterMap (fun r => r.question)
      match (analyze_batch_questions qs 250).getLast? with
      | none =>
        .ok ([], { cols := catColsAfter f.cols,
                   rows := f.rows.map (fun r => { r with category := none }) })
      | some t =>
        .ok (catMetricsOf f.rows t.2.2,
             { cols := catColsAfter f.cols, rows := catRows2 f.rows t.2.2 })
  else .error .keyError

/-! ## Concrete example inputs used by witnesses and counterexamples -/

/-- A user text message. -/
def exMsgU (q : String) : Message :=
  { role := some "user", type := some "text", content := some q, score := none }

/-- An assistant text message with a score. -/
def exMsgA (a : String) (s : ℚ) : Message :=
  { role := some "assistant", type := some "text", content := some a, score := some s }

/-- A flat-table row as the flattener would emit it. -/
def exRow (n : ℕ) (at_ co : String) (q : Option String) : QRow :=
  { sno := n, askedAt := at_, country := co, question := q, answer := none,
    score := .na, date := none, category := none }

/-- Conversation with two user questions around one scored assistant
answer. -/
def c1conv : RawConv :=
  ⟨some "2023-03-05T14:30:00.123456+05:30", some "IN",
    some [exMsgU "q1", exMsgA "a1" 5, exMsgU "q2"]⟩

/-- The two rows `processConv c1conv 0` emits. -/
def c1row1 : QRow :=
  { sno := 1, askedAt := "March 05, 2023 14:30:00", country := "IN",
    question := some "q1", answer := some "a1", score := .val 5,
    date := none, category := none }

/-- Second emitted row of `c1conv`. -/
def c1row2 : QRow :=
  { sno := 2, askedAt := "March 05, 2023 14:30:00", country := "IN",
    question := some "q2", answer := some "a1", score := .val 5,
    date := none, category := none }

/-- Document with two conversations and three user questions in total. -/
def c2doc : RawDoc :=
  ⟨some [c1conv, ⟨some "2023-03-06T09:00:00.000001", some "FR", some [exMsgU "q3"]⟩]⟩

/-- Third row of the `c2doc` flat table. -/
def c2row3 : QRow :=
  { sno := 3, askedAt := "March 06, 2023 09:00:00", country := "FR",
    question := some "q3", answer := none, score := .na,
    date := none, category := none }

/-- Conversation whose `created_at` month field `13` cannot parse. -/
def c8badTs : RawConv := ⟨some "2023-13-01T00:00:00.0", some "US", some []⟩

/-- Conversation missing the `messages` key. -/
def c8noMsgs : RawConv := ⟨some "2023-01-02T03:04:05.6", some "US", none⟩

/-- Conversation missing the `country` key but containing a user
message. -/
def c8noCountry : RawConv := ⟨some "2023-01-02T03:04:05.6", none, some [exMsgU "q"]⟩

/-- Flat table where countries `A` and `B` tie at one question each,
first appearing in the order `A`, `B`. -/
def cex5F : Frame :=
  ⟨stdCols, [exRow 1 "March 05, 2023 14:30:00" "A" (some "x"),
    exRow 2 "March 05, 2023 14:30:00" "B" (some "y")]⟩

/-- Flat table with two countries and three questions. -/
def c5wF : Frame :=
  ⟨stdCols, [exRow 1 "March 05, 2023 14:30:00" "GB" (some "a"),
    exRow 2 "March 05, 2023 14:30:00" "DE" (some "b"),
    exRow 3 "March 06, 2023 10:00:00" "GB" (some "c")]⟩

/-- One-row flat table used for the aggregator mutation claims. -/
def cex6F : Frame :=
  ⟨stdCols, [exRow 1 "March 05, 2023 14:30:00" "US" (some "hello")]⟩

/-- One-row flat table used for the aggregator mutation witness. -/
def c6wF : Frame :=
  ⟨stdCols, [exRow 1 "March 05, 2023 14:30:00" "FR" (some "bonjour")]⟩

/-- One-row flat table: its single category gets share 100%. -/
def cex7F : Frame :=
  ⟨stdCols, [exRow 1 "March 05, 2023 14:30:00" "US" (some "hello")]⟩

/-- Three-row flat table splitting 2:1 over two categories. -/
def c7wF : Frame :=
  ⟨stdCols, [exRow 1 "March 05, 2023 14:30:00" "US" (some "hello"),
    exRow 2 "March 05, 2023 14:30:00" "US" (some "bye"),
    exRow 3 "March 05, 2023 14:30:00" "US" (some "what is x")]⟩

/-! ## Helper lemmas: flattener -/

/-- Every row `emitRows` produces carries the formatted date, the answer
and the score it was given; rows are one per user message, numbered
consecutively from `off + 1`. -/
theorem emitRows_ok (country? : Option String) (fd : String) (ans : Option String)
    (sc : ScoreVal) :
    ∀ (msgs : List Message) (off : ℕ) (rs : List QRow),
      emitRows country? fd ans sc msgs off = .ok rs →
      (∀ r ∈ rs, r.askedAt = fd ∧ r.answer = ans ∧ r.score = sc) ∧
      rs.length = msgs.countP isUserMsg ∧
      rs.map QRow.sno = List.range' (off + 1) rs.length := by
  intro msgs
  induction msgs with
  | nil =>
    intro off rs h
    simp only [emitRows] at h
    injection h with h
    subst h
    simp
  | cons m ms ih =>
    intro off rs h
    by_cases hu : isUserMsg m
    · simp only [emitRows, hu, if_true] at h
      cases hc : country? with
      | none => rw [hc] at h; cases h
      | some co =>
        rw [hc] at h
        cases hrec : emitRows country? fd ans sc ms (off + 1) with
        | error e => rw [hc] at hrec; rw [hrec] at h; cases h
        | ok rest =>
          rw [hc] at hrec
          rw [hrec] at h
          injection h with h
          subst h
          obtain ⟨hall, hlen, hsno⟩ := ih (off + 1) rest (hc ▸ hrec)
          refine ⟨?_, ?_, ?_⟩
          · intro r hr
            rcases List.mem_cons.mp hr with h | h
            · subst h; exact ⟨rfl, rfl, rfl⟩
            · exact hall r h
          · simp [List.countP_cons, hu, hlen]
          · simp only [List.map_cons, hsno, List.length_cons]
            rw [List.range'_succ]
    · simp only [emitRows, hu, if_false] at h
      obtain ⟨hall, hlen, hsno⟩ := ih off rs h
      refine ⟨hall, ?_, hsno⟩
      simp [List.countP_cons, hu, hlen]

/-- The first message scan computes the content/score of the *last*
assistant text message in document order. -/
theorem foldl_lastAssistant (msgs : List Message) :
    ∀ init : Option String × ScoreVal,
      msgs.foldl
          (fun acc m => if isAssistantText m then (m.content, scoreOfMsg m) else acc) init =
        match (msgs.filter isAssistantText).getLast? with
        | some mm => (mm.content, scoreOfMsg mm)
        | none => init := by
  induction msgs with
  | nil => intro init; rfl
  | cons m ms ih =>
    intro init
    simp only [List.foldl_cons, List.filter_cons]
    by_cases hm : isAssistantText m
    · simp only [hm, if_true]
      rw [ih]
      cases hfl : ms.filter isAssistantText with
      | nil => simp
      | cons x xs =>
        cases hgl : (x :: xs).getLast? with
        | none => simp at hgl
        | some y => simp [hgl]
    · simp only [hm, Bool.false_eq_true, if_false]
      rw [ih]

/-- `lastAssistantPair` via the last assistant text message. -/
theorem lastAssistantPair_eq (msgs : List Message) :
    lastAssistantPair msgs =
      match (msgs.filter isAssistantText).getLast? with
      | some mm => (mm.content, scoreOfMsg mm)
      | none => (none, .na) := by
  unfold lastAssistantPair
  exact foldl_lastAssistant msgs (none, .na)

/-- Successful single-conversation processing decomposed into its parsing
and emission steps. -/
theorem processConv_ok {c : RawConv} {off : ℕ} {rs : List QRow}
    (h : processConv c off = .ok rs) :
    ∃ ca ts msgs, c.created_at = some ca ∧ parseTimestamp (stripPlus ca) = some ts ∧
      c.messages = some msgs ∧
      emitRows c.country (formatTimestamp ts) (lastAssistantPair msgs).1
        (lastAssistantPair msgs).2 msgs off = .ok rs := by
  unfold processConv at h
  split at h
  · cases h
  · rename_i ca hca
    split at h
    · cases h
    · rename_i ts hts
      split at h
      · cases h
      · rename_i msgs hm
        exact ⟨ca, ts, msgs, hca, hts, hm, h⟩

/-- Successful processing of a conversation list: row count is the sum of
per-conversation user-message counts, and `S.No` are consecutive from
`off + 1`. -/
theorem processConvs_ok :
    ∀ (cs : List RawConv) (off : ℕ) (rows : List QRow),
      processConvs cs off = .ok rows →
      rows.length = (cs.map (fun c => (c.messages.getD []).countP isUserMsg)).sum ∧
      rows.map QRow.sno = List.range' (off + 1) rows.length := by
  intro cs
  induction cs with
  | nil =>
    intro off rows h
    simp only [processConvs] at h
    injection h with h
    subst h
    simp
  | cons c cs ih =>
    intro off rows h
    unfold processConvs at h
    split at h
    · cases h
    · rename_i rs h1
      split at h
      · cases h
      · rename_i rest h2
        injection h with h
        subst h
        obtain ⟨ca, ts, msgs, hca, hts, hm, hemit⟩ := processConv_ok h1
        obtain ⟨-, hlen, hsno⟩ := emitRows_ok _ _ _ _ _ _ _ hemit
        obtain ⟨ihlen, ihsno⟩ := ih (off + rs.length) rest h2
        constructor
        · simp [hm, List.length_append, hlen, ihlen]
        · simp only [List.map_append, hsno, ihsno, List.length_append]
          have harg : off + rs.length + 1 = off + 1 + rs.length := by omega
          rw [harg, List.range'_append_1, Nat.add_comm rest.length rs.length]

/-! ## Claims C1, C2, C9: the flattener -/

/-- C1: every row emitted for a conversation carries the same answer and
score, equal to the content and score (with the `"N/A"` default) of the
last assistant text message in document order; with no assistant text
message, the answer is null and the score is the sentinel. -/
theorem claim_C1 (c : RawConv) (off : ℕ) (rs : List QRow) (msgs : List Message)
    (hok : processConv c off = .ok rs) (hm : c.messages = some msgs) :
    (∀ mm, (msgs.filter isAssistantText).getLast? = some mm →
      ∀ r ∈ rs, r.answer = mm.content ∧ r.score = scoreOfMsg mm) ∧
    (msgs.filter isAssistantText = [] →
      ∀ r ∈ rs, r.answer = none ∧ r.score = ScoreVal.na) := by
  obtain ⟨ca, ts, msgs', hca, hts, hm', hemit⟩ := processConv_ok hok
  rw [hm] at hm'
  injection hm' with he
  subst he
  obtain ⟨hall, -, -⟩ := emitRows_ok _ _ _ _ _ _ _ hemit
  have hlp := lastAssistantPair_eq msgs
  constructor
  · intro mm hmm r hr
    rw [hmm] at hlp
    obtain ⟨-, ha, hs⟩ := hall r hr
    rw [hlp] at ha hs
    exact ⟨ha, hs⟩
  · intro hnil r hr
    rw [hnil] at hlp
    simp only [List.getLast?_nil] at hlp
    obtain ⟨-, ha, hs⟩ := hall r hr
    rw [hlp] at ha hs
    exact ⟨ha, hs⟩

/-- Witness for C1 at a concrete conversation. -/
theorem claim_C1_witness :
    c1row1.answer = (exMsgA "a1" 5).content ∧ c1row1.score = scoreOfMsg (exMsgA "a1" 5) :=
  (claim_C1 c1conv 0 [c1row1, c1row2] [exMsgU "q1", exMsgA "a1" 5, exMsgU "q2"]
    (by rfl) (by rfl)).1 (exMsgA "a1" 5) (by rfl) c1row1 (by simp)

/-- C2: a successfully flattened document yields exactly one row per user
message, with `S.No` running `1..N` in emission order, without gaps or
repeats. -/
theorem claim_C2 (d : RawDoc) (cs : List RawConv) (f : Frame)
    (hcs : d.conversations = some cs) (hok : process_conversations d = .ok f) :
    f.rows.length = (cs.map (fun c => (c.messages.getD []).countP isUserMsg)).sum ∧
    f.rows.map QRow.sno = List.range' 1 f.rows.length := by
  unfold process_conversations at hok
  rw [hcs] at hok
  split at hok
  · rename_i heq
    simp at heq
  · rename_i rows hrows
    injection hrows with hrows
    subst hrows
    split at hok
    · cases hok
    · rename_i rows2 hrows2
      injection hok with hok
      subst hok
      simpa using processConvs_ok cs 0 rows2 hrows2

/-- Witness for C2 at a concrete two-conversation document. -/
theorem claim_C2_witness :
    (Frame.mk stdCols [c1row1, c1row2, c2row3]).rows.length =
      ((c2doc.conversations.getD []).map
        (fun c => (c.messages.getD []).countP isUserMsg)).sum ∧
    (Frame.mk stdCols [c1row1, c1row2, c2row3]).rows.map QRow.sno =
      List.range' 1 (Frame.mk stdCols [c1row1, c1row2, c2row3]).rows.length :=
  claim_C2 c2doc (c2doc.conversations.getD []) (Frame.mk stdCols [c1row1, c1row2, c2row3])
    (by rfl) (by rfl)

/-- C9: all rows of one conversation share one `asked_at` value, the
conversation's parsed `created_at` rendered by the `"%B %d, %Y %H:%M:%S"`
formatter — timestamps have conversation granularity. -/
theorem claim_C9 (c : RawConv) (off : ℕ) (rs : List QRow)
    (hok : processConv c off = .ok rs) :
    ∃ ca ts, c.created_at = some ca ∧ parseTimestamp (stripPlus ca) = some ts ∧
      ∀ r ∈ rs, r.askedAt = formatTimestamp ts := by
  obtain ⟨ca, ts, msgs, hca, hts, hm, hemit⟩ := processConv_ok hok
  exact ⟨ca, ts, hca, hts, fun r hr => ((emitRows_ok _ _ _ _ _ _ _ hemit).1 r hr).1⟩

/-- Witness for C9 at a concrete conversation. -/
theorem claim_C9_witness :
    ∃ ca ts, c1conv.created_at = some ca ∧ parseTimestamp (stripPlus ca) = some ts ∧
      ∀ r ∈ [c1row1, c1row2], r.askedAt = formatTimestamp ts :=
  claim_C9 c1conv 0 [c1row1, c1row2] (by rfl)

/-! ## Claim C3: classifier examples -/

/-- C3: the classifier maps each of the six example inputs to exactly the
stated label. -/
theorem claim_C3 :
    analyze_question_category "What is Atlan?" = "What is / Define (Branded)" ∧
    analyze_question_category "How to use Atlan connectors" = "FAQ / How to (Branded)" ∧
    analyze_question_category "Atlan pricing" = "Branded" ∧
    analyze_question_category "What is data lineage?" = "What is / Define (Non branded)" ∧
    analyze_question_category "How do I set up a guide" = "FAQ / How to Type (Non branded)" ∧
    analyze_question_category "hello" = "Others" :=
  ⟨by rfl, by rfl, by rfl, by rfl, by rfl, by rfl⟩

/-! ## Claim C10: empty conversation list -/

/-- C10: an empty `conversations` list flattens to a frame with no
columns at all, and both the daily and the country aggregator then fail
with a missing-column `KeyError` instead of returning an empty metrics
table. -/
theorem claim_C10 (d : RawDoc) (hd : d.conversations = some []) :
    process_conversations d = .ok ⟨[], []⟩ ∧
    get_daily_metrics ⟨[], []⟩ = .error .keyError ∧
    get_country_metrics ⟨[], []⟩ = .error .keyError := by
  refine ⟨?_, by rfl, by rfl⟩
  unfold process_conversations
  rw [hd]
  rfl

/-- Witness for C10 at the concrete empty document. -/
theorem claim_C10_witness :
    process_conversations ⟨some []⟩ = .ok ⟨[], []⟩ ∧
    get_daily_metrics ⟨[], []⟩ = .error .keyError ∧
    get_country_metrics ⟨[], []⟩ = .error .keyError :=
  claim_C10 ⟨some []⟩ (by rfl)

/-! ## Claim C8: flattener error handling (corrected)

The claim asserts a `KeyError` for *every* document missing a `country`
key.  The source only reads `conversation['country']` while building a
row (app.py:35), so a conversation without `country` and without user
messages flattens successfully — see the counterexample.  What does hold:
missing `conversations` or `messages` keys and unparseable `created_at`
fail with the stated errors as soon as the conversation is reached, a
missing `country` fails exactly when a user message exists, errors
propagate fatally, and an error carries no rows. -/

/-- Row emission with a missing `country` key raises `KeyError` exactly
when a user message is present. -/
theorem emitRows_none_country :
    ∀ (msgs : List Message) (fd : String) (ans : Option String) (sc : ScoreVal) (off : ℕ),
      msgs.countP isUserMsg ≠ 0 →
      emitRows none fd ans sc msgs off = .error .keyError := by
  intro msgs
  induction msgs with
  | nil => intro fd ans sc off h; simp at h
  | cons m ms ih =>
    intro fd ans sc off h
    by_cases hu : isUserMsg m
    · simp [emitRows, hu]
    · simp only [emitRows, hu, Bool.false_eq_true, if_false]
      apply ih
      simpa [List.countP_cons, hu] using h

/-- Counterexample to C8: this document's only conversation has no
`country` key, yet the flattener succeeds (with an empty table) instead
of failing with a KeyError, because `conversation['country']` is only
evaluated per user message and there are none. -/
theorem counterexample_C8 :
    process_conversations ⟨some [⟨some "2023-03-05T14:30:00.123456", none, some []⟩]⟩ =
      .ok ⟨[], []⟩ := by
  rfl

/-- C8 (amended): a missing `conversations` key fails with `KeyError`; a
reached conversation with an unparseable `created_at` (offset suffix
stripped) fails with the parse `ValueError`; a reached conversation
missing `messages` fails with `KeyError`; a reached conversation missing
`country` fails with `KeyError` exactly when it contains at least one
user message; any such per-conversation error propagates fatally to the
whole document, and an error result carries no rows. -/
theorem claim_C8_amended :
    (∀ d : RawDoc, d.conversations = none → process_conversations d = .error .keyError) ∧
    (∀ (c : RawConv) (off : ℕ) ca, c.created_at = some ca →
      parseTimestamp (stripPlus ca) = none → processConv c off = .error .valueError) ∧
    (∀ (c : RawConv) (off : ℕ) ca ts, c.created_at = some ca →
      parseTimestamp (stripPlus ca) = some ts → c.messages = none →
      processConv c off = .error .keyError) ∧
    (∀ (c : RawConv) (off : ℕ) ca ts msgs, c.created_at = some ca →
      parseTimestamp (stripPlus ca) = some ts → c.messages = some msgs →
      c.country = none → msgs.countP isUserMsg ≠ 0 →
      processConv c off = .error .keyError) ∧
    (∀ (cs1 : List RawConv) (c : RawConv) (cs2 : List RawConv) (off : ℕ)
      (rows : List QRow) (e : PyErr), processConvs cs1 off = .ok rows →
      processConv c (off + rows.length) = .error e →
      processConvs (cs1 ++ c :: cs2) off = .error e) ∧
    (∀ (d : RawDoc) (cs : List RawConv) (e : PyErr), d.conversations = some cs →
      processConvs cs 0 = .error e → process_conversations d = .error e) := by
  refine ⟨?_, ?_, ?_, ?_, ?_, ?_⟩
  · intro d hd
    unfold process_conversations
    rw [hd]
  · intro c off ca hca hts
    simp [processConv, hca, hts]
  · intro c off ca ts hca hts hm
    simp [processConv, hca, hts, hm]
  · intro c off ca ts msgs hca hts hm hco hcnt
    simp only [processConv, hca, hts, hm, hco]
    exact emitRows_none_country msgs _ _ _ off hcnt
  · intro cs1
    induction cs1 with
    | nil =>
      intro c cs2 off rows e h1 h2
      simp only [processConvs] at h1
      injection h1 with h1
      subst h1
      simp only [List.length_nil, Nat.add_zero] at h2
      simp [processConvs, h2]
    | cons c1 cs1 ih =>
      intro c cs2 off rows e h1 h2
      unfold processConvs at h1
      split at h1
      · cases h1
      · rename_i rs hrs
        split at h1
        · cases h1
        · rename_i rest hrest
          injection h1 with h1
          subst h1
          have h2' : processConv c (off + rs.length + rest.length) = .error e := by
            have : off + rs.length + rest.length = off + (rs ++ rest).length := by
              simp [List.length_append]
              omega
            rw [this]
            exact h2
          have := ih c cs2 (off + rs.length) rest e hrest h2'
          simp [processConvs, hrs, this]
  · intro d cs e hcs herr
    unfold process_conversations
    rw [hcs]
    simp [herr]

/-- Witness for C8 (amended), instantiating each conjunct at a concrete
input. -/
theorem claim_C8_amended_witness :
    process_conversations ⟨none⟩ = .error .keyError ∧
    processConv c8badTs 0 = .error .valueError ∧
    processConv c8noMsgs 0 = .error .keyError ∧
    processConv c8noCountry 0 = .error .keyError ∧
    processConvs [c1conv, c8badTs] 0 = .error .valueError ∧
    process_conversations ⟨some [c8badTs]⟩ = .error .valueError := by
  refine ⟨claim_C8_amended.1 ⟨none⟩ rfl,
    claim_C8_amended.2.1 c8badTs 0 "2023-13-01T00:00:00.0" rfl (by rfl),
    claim_C8_amended.2.2.1 c8noMsgs 0 "2023-01-02T03:04:05.6" ⟨2023, 1, 2, 3, 4, 5, 600000⟩
      rfl (by rfl) rfl,
    claim_C8_amended.2.2.2.1 c8noCountry 0 "2023-01-02T03:04:05.6" ⟨2023, 1, 2, 3, 4, 5, 600000⟩
      [exMsgU "q"] rfl (by rfl) rfl rfl (by decide),
    ?_,
    claim_C8_amended.2.2.2.2.2 ⟨some [c8badTs]⟩ [c8badTs] .valueError rfl (by rfl)⟩
  have h5 := claim_C8_amended.2.2.2.2.1 [c1conv] c8badTs [] 0 [c1row1, c1row2] .valueError
    (by rfl) (by rfl)
  simpa using h5

/-! ## Helper lemmas: batch driver -/

/-- Once the chunk index reaches the end, the loop yields nothing at any
fuel. -/
theorem batchLoop_done (qs : List String) (bs : ℕ) :
    ∀ (fuel i : ℕ) (acc : List String), qs.length ≤ i →
      batchLoop qs bs fuel i acc = [] := by
  intro fuel i acc h
  cases fuel with
  | zero => rfl
  | succ k => rw [batchLoop, if_neg (by omega)]

/-- Number of yields of the generator loop: one per remaining chunk. -/
theorem batchLoop_length (qs : List String) (bs : ℕ) (hbs : 0 < bs) :
    ∀ (fuel i : ℕ) (acc : List String), qs.length - i ≤ fuel →
      (batchLoop qs bs fuel i acc).length = (qs.length - i + bs - 1) / bs := by
  intro fuel
  induction fuel with
  | zero =>
    intro i acc hk
    have h0 : qs.length - i = 0 := by omega
    have hz : (qs.length - i + bs - 1) / bs = 0 := Nat.div_eq_of_lt (by omega)
    simp [batchLoop, hz]
  | succ fuel ih =>
    intro i acc hk
    by_cases hcond : 0 < bs ∧ i < qs.length
    · rw [batchLoop, if_pos hcond]
      simp only [List.length_cons]
      rw [ih (i + bs) _ (by omega)]
      rcases le_or_lt qs.length (i + bs) with hle | hlt
      · have e1 : qs.length - (i + bs) = 0 := by omega
        rw [e1]
        have e2 : (0 + bs - 1) / bs = 0 := Nat.div_eq_of_lt (by omega)
        have e3 : (qs.length - i + bs - 1) / bs = 1 := by
          apply Nat.div_eq_of_lt_le
          · omega
          · omega
        omega
      · have e1 : qs.length - i + bs - 1 = (qs.length - (i + bs) + bs - 1) + bs := by
          omega
        rw [e1, Nat.add_div_right _ hbs]
    · rw [batchLoop, if_neg hcond]
      have h0 : qs.length - i = 0 := by omega
      have hz : (qs.length - i + bs - 1) / bs = 0 := Nat.div_eq_of_lt (by omega)
      simp [hz]

/-- Every yielded `fraction_complete` lies in `(0, 1]`. -/
theorem batchLoop_fracs (qs : List String) (bs : ℕ) :
    ∀ (fuel i : ℕ) (acc : List String), ∀ t ∈ batchLoop qs bs fuel i acc,
      0 < t.1 ∧ t.1 ≤ 1 := by
  intro fuel
  induction fuel with
  | zero =>
    intro i acc t ht
    cases ht
  | succ fuel ih =>
    intro i acc t ht
    by_cases hcond : 0 < bs ∧ i < qs.length
    · rw [batchLoop, if_pos hcond] at ht
      rcases List.mem_cons.mp ht with h | h
      · subst h
        refine ⟨lt_min ?_ (by norm_num), min_le_right _ _⟩
        apply div_pos
        · have hb : (0 : ℚ) < bs := by exact_mod_cast hcond.1
          have hi0 : (0 : ℚ) ≤ (i : ℚ) := by positivity
          linarith
        · have hn : 0 < qs.length := by omega
          exact_mod_cast hn
      · exact ih (i + bs) _ t h
    · rw [batchLoop, if_neg hcond] at ht
      cases ht

/-- The last yield of a non-finished loop: its fraction is `1.0` and its
category list is the accumulator extended by the classification of all
remaining questions. -/
theorem batchLoop_last (qs : List String) (bs : ℕ) (hbs : 0 < bs) :
    ∀ (fuel i : ℕ) (acc : List String), qs.length - i ≤ fuel → i < qs.length →
      ∃ t, (batchLoop qs bs fuel i acc).getLast? = some t ∧ t.1 = 1 ∧
        t.2.2 = acc ++ (qs.drop i).map analyze_question_category := by
  intro fuel
  induction fuel with
  | zero => intro i acc hk hi; omega
  | succ fuel ih =>
    intro i acc hk hi
    rw [batchLoop, if_pos ⟨hbs, hi⟩]
    dsimp only
    rcases le_or_lt qs.length (i + bs) with hle | hlt
    · have hnil : batchLoop qs bs fuel (i + bs)
          (acc ++ ((qs.drop i).take bs).map analyze_question_category) = [] :=
        batchLoop_done qs bs fuel (i + bs) _ hle
      simp only [hnil]
      refine ⟨_, rfl, ?_, ?_⟩
      · have hn : (0 : ℚ) < qs.length := by
          have : 0 < qs.length := by omega
          exact_mod_cast this
        have hge : (1 : ℚ) ≤ ((i : ℚ) + bs) / qs.length := by
          rw [le_div_iff₀ hn]
          have : (qs.length : ℚ) ≤ (i : ℚ) + bs := by exact_mod_cast hle
          linarith
        simpa using min_eq_right hge
      · have htake : (qs.drop i).take bs = qs.drop i := by
          apply List.take_of_length_le
          simp [List.length_drop]
          omega
        simp [htake]
    · have hnext := ih (i + bs) (acc ++ ((qs.drop i).take bs).map analyze_question_category)
        (by omega) hlt
      obtain ⟨t, hgl, h1, h2⟩ := hnext
      refine ⟨t, ?_, h1, ?_⟩
      · cases htail : batchLoop qs bs fuel (i + bs)
            (acc ++ ((qs.drop i).take bs).map analyze_question_category) with
        | nil => rw [htail] at hgl; cases hgl
        | cons x xs =>
          rw [htail] at hgl
          rw [List.getLast?_cons_cons]
          exact hgl
      · rw [h2]
        have hsplit : ((qs.drop i).take bs).map analyze_question_category ++
            (qs.drop (i + bs)).map analyze_question_category =
            (qs.drop i).map analyze_question_category := by
          rw [← List.map_append]
          congr 1
          have := List.take_append_drop bs (qs.drop i)
          rw [List.drop_drop] at this
          exact this
        rw [List.append_assoc, hsplit]

/-! ## Claim C4: batch driver refinement -/

/-- C4: for any batch size at least 1 and any question list (lengths 0 and
1 included), the final `all_categories_so_far` equals classifying the
whole list in one pass (an empty list yields nothing and the default
empty final list), the driver yields exactly one tuple per chunk (a
finite list), every yielded fraction lies in `(0, 1]`, and for non-empty
input the tuple yielded after the last chunk has fraction `1`. -/
theorem claim_C4 (qs : List String) (bs : ℕ) (hbs : 1 ≤ bs) :
    ((analyze_batch_questions qs bs).getLast?.map (fun t => t.2.2)).getD []
        = qs.map analyze_question_category ∧
    (analyze_batch_questions qs bs).length = (qs.length + bs - 1) / bs ∧
    (∀ t ∈ analyze_batch_questions qs bs, 0 < t.1 ∧ t.1 ≤ 1) ∧
    (qs ≠ [] → ∃ t, (analyze_batch_questions qs bs).getLast? = some t ∧ t.1 = 1) := by
  refine ⟨?_, ?_, ?_, ?_⟩
  · rcases Nat.eq_zero_or_pos qs.length with hn | hn
    · have hq : qs = [] := List.length_eq_zero.mp hn
      subst hq
      rfl
    · obtain ⟨t, hgl, -, h2⟩ := batchLoop_last qs bs hbs qs.length 0 [] (by omega) hn
      rw [analyze_batch_questions, hgl]
      simpa using h2
  · have := batchLoop_length qs bs hbs qs.length 0 [] (by omega)
    simpa [analyze_batch_questions] using this
  · intro t ht
    exact batchLoop_fracs qs bs qs.length 0 [] t ht
  · intro hne
    have hn : 0 < qs.length := List.length_pos.mpr hne
    obtain ⟨t, hgl, h1, -⟩ := batchLoop_last qs bs hbs qs.length 0 [] (by omega) hn
    exact ⟨t, hgl, h1⟩

/-- Witness for C4 at a concrete three-question input with batch size 2. -/
theorem claim_C4_witness :
    (((analyze_batch_questions ["hello", "what is x", "atlan"] 2).getLast?.map
        (fun t => t.2.2)).getD [] =
      ["hello", "what is x", "atlan"].map analyze_question_category) ∧
    (analyze_batch_questions ["hello", "what is x", "atlan"] 2).length = 2 ∧
    (∃ t, (analyze_batch_questions ["hello", "what is x", "atlan"] 2).getLast? = some t ∧
      t.1 = 1) := by
  have h := claim_C4 ["hello", "what is x", "atlan"] 2 (by norm_num)
  exact ⟨h.1, by simpa using h.2.1, h.2.2.2 (by simp)⟩

/-! ## Helper lemmas: grouping and sorting -/

/-- Summing a one-hot indicator over a duplicate-free list containing `a`
gives exactly 1. -/
theorem sum_map_eq_ite_one {K : Type} [DecidableEq K] (a : K) :
    ∀ D : List K, D.Nodup → a ∈ D →
      (D.map (fun k => if a = k then (1 : ℕ) else 0)).sum = 1 := by
  intro D
  induction D with
  | nil => intro _ h; cases h
  | cons k D ih =>
    intro hnd hm
    simp only [List.map_cons, List.sum_cons]
    by_cases hak : a = k
    · subst hak
      have hnotin : a ∉ D := (List.nodup_cons.mp hnd).1
      have hz : (D.map (fun k => if a = k then (1 : ℕ) else 0)).sum = 0 := by
        apply List.sum_eq_zero
        intro x hx
        obtain ⟨b, hb, hbe⟩ := List.mem_map.mp hx
        by_cases hab : a = b
        · exact absurd (hab ▸ hb) hnotin
        · rw [if_neg hab] at hbe
          exact hbe.symm
      simp [hz]
    · have hm' : a ∈ D := by
        rcases List.mem_cons.mp hm with h | h
        · exact absurd h hak
        · exact h
      simp [hak, ih (List.nodup_cons.mp hnd).2 hm']

/-- Partition of a `countP` over the groups of a `groupby`: summing the
per-group counts over any duplicate-free key list covering all rows gives
the global count. -/
theorem countP_filter_partition {R K : Type} [BEq K] [LawfulBEq K] [DecidableEq K]
    (p : R → Bool) (key : R → K) :
    ∀ (rows : List R) (D : List K), D.Nodup → (∀ r ∈ rows, key r ∈ D) →
      (D.map (fun k => ((rows.filter (fun r => key r == k)).countP p))).sum
        = rows.countP p := by
  intro rows
  induction rows with
  | nil => intro D _ _; simp
  | cons r rows ih =>
    intro D hnd hmem
    have hr : key r ∈ D := hmem r (by simp)
    have hrec := ih D hnd (fun x hx => hmem x (by simp [hx]))
    have hmap : D.map (fun k => (((r :: rows).filter (fun x => key x == k)).countP p))
        = D.map (fun k => ((rows.filter (fun x => key x == k)).countP p)
            + (if p r = true then (if key r = k then 1 else 0) else 0)) := by
      apply List.map_congr_left
      intro k _
      by_cases hk : key r = k
      · have hkb : (key r == k) = true := by simp [hk]
        rw [List.filter_cons]
        rw [hkb]
        simp only [if_true, List.countP_cons]
        by_cases hp : p r
        · simp [hp, hk]
        · simp [hp]
      · have hkb : (key r == k) = false := by simp [hk]
        rw [List.filter_cons, hkb]
        simp [hk]
    rw [hmap, List.sum_map_add, hrec, List.countP_cons]
    congr 1
    by_cases hp : p r
    · simp only [hp, if_true]
      exact sum_map_eq_ite_one (key r) D hnd hr
    · simp [hp]

/-- `sortValsDesc` permutes its input. -/
theorem sortValsDesc_perm {α : Type} (r : α → α → Prop) [DecidableRel r] (l : List α) :
    List.Perm (sortValsDesc r l) l := by
  unfold sortValsDesc
  exact (List.reverse_perm _).trans (List.perm_insertionSort r l)

/-- A descending `sort_values` by a `ℕ` projection is non-increasing in
that projection. -/
theorem sortValsDesc_pairwise_ge {α : Type} (proj : α → ℕ) (l : List α) :
    (sortValsDesc (fun a b => proj a ≤ proj b) l).Pairwise
      (fun a b => proj b ≤ proj a) := by
  unfold sortValsDesc
  rw [List.pairwise_reverse]
  have htot : IsTotal α (fun a b => proj a ≤ proj b) := ⟨fun a b => Nat.le_total _ _⟩
  have htr : IsTrans α (fun a b => proj a ≤ proj b) :=
    ⟨fun a b c hab hbc => le_trans hab hbc⟩
  exact List.sorted_insertionSort _ l

/-! ## Claim C5: country aggregator (corrected)

The claim asserts ties between equal `Questions` values are broken by
first appearance in the input.  In the source, `groupby('Country')`
(default `sort=True`) orders the groups alphabetically, and
`sort_values('Questions', ascending=False)` reverses an ascending
argsort, so tied countries come out in reverse-alphabetical order, not in
input order — see the counterexample.  The remaining clauses hold, with
`Questions` summing to the number of rows with a non-null question
(pandas `count` skips nulls), which is all rows whenever every question
is present. -/

/-- Counterexample to C5: countries `A` and `B` tie with one question
each and first appear in the order `A`, `B`, but the output lists `B`
first — the tie is not broken by input order. -/
theorem counterexample_C5 :
    Except.map (fun p => p.1.map (fun r => (r.country, r.questions)))
        (get_country_metrics cex5F) = .ok [("B", 1), ("A", 1)] ∧
    cex5F.rows.map QRow.country = ["A", "B"] :=
  ⟨by rfl, by rfl⟩

/-- C5 (amended): for a flat table whose questions are all non-null, the
country aggregator emits exactly one row per distinct country (its
country column is a permutation of the distinct input countries), the
output country set equals the input country set, `Questions` is
non-increasing down the table, and `Questions` sums to the input row
count.  Tie order is not first-appearance order. -/
theorem claim_C5_amended (f : Frame) (t : List CountryRow) (f2 : Frame)
    (hq : ∀ r ∈ f.rows, r.question.isSome)
    (hok : get_country_metrics f = .ok (t, f2)) :
    List.Perm (t.map CountryRow.country) ((f.rows.map QRow.country).dedup) ∧
    (∀ c, c ∈ t.map CountryRow.country ↔ c ∈ f.rows.map QRow.country) ∧
    t.Pairwise (fun a b => b.questions ≤ a.questions) ∧
    (t.map CountryRow.questions).sum = f.rows.length := by
  unfold get_country_metrics at hok
  split at hok
  · split at hok
    · injection hok with hok
      rw [Prod.mk.injEq] at hok
      obtain ⟨ht, -⟩ := hok
      subst ht
      set keys := ((f.rows.map QRow.country).dedup).insertionSort
        (fun a b => strLe a b = true) with hkeys
      have hkperm : List.Perm keys ((f.rows.map QRow.country).dedup) :=
        List.perm_insertionSort _ _
      have hknd : keys.Nodup := hkperm.nodup_iff.mpr (List.nodup_dedup _)
      have hkmem : ∀ r ∈ f.rows, r.country ∈ keys := by
        intro r hr
        rw [hkperm.mem_iff, List.mem_dedup]
        exact List.mem_map_of_mem QRow.country hr
      set tbl := keys.map (fun k =>
        let g := f.rows.filter (fun r => r.country == k)
        CountryRow.mk k (g.countP (fun r => r.question.isSome))
          ((g.map (fun r => r.askedAt)).dedup).length) with htbl
      have htblperm : List.Perm (sortValsDesc (fun a b => a.questions ≤ b.questions) tbl) tbl :=
        sortValsDesc_perm _ _
      have htblc : tbl.map CountryRow.country = keys := by
        rw [htbl, List.map_map]
        exact List.map_id _
      have hperm1 : List.Perm ((sortValsDesc (fun a b => a.questions ≤ b.questions) tbl).map
          CountryRow.country) ((f.rows.map QRow.country).dedup) := by
        refine (htblperm.map CountryRow.country).trans ?_
        rw [htblc]
        exact hkperm
      refine ⟨hperm1, ?_, ?_, ?_⟩
      · intro c
        rw [hperm1.mem_iff, List.mem_dedup]
      · exact sortValsDesc_pairwise_ge CountryRow.questions tbl
      · rw [(htblperm.map CountryRow.questions).sum_eq]
        rw [htbl, List.map_map]
        have hsum : (keys.map (fun k =>
            ((f.rows.filter (fun r => r.country == k)).countP
              (fun r => r.question.isSome)))).sum
            = f.rows.countP (fun r => r.question.isSome) :=
          countP_filter_partition _ QRow.country f.rows keys hknd hkmem
        rw [show ((fun r : CountryRow => r.questions) ∘ fun k =>
            let g := f.rows.filter (fun r => r.country == k)
            CountryRow.mk k (g.countP (fun r => r.question.isSome))
              ((g.map (fun r => r.askedAt)).dedup).length)
            = fun k => ((f.rows.filter (fun r => r.country == k)).countP
              (fun r => r.question.isSome)) from rfl]
        rw [hsum]
        rw [List.countP_eq_length]
        intro r hr
        exact hq r hr
    · cases hok
  · cases hok

/-- Witness for C5 (amended) at a concrete two-country table. -/
theorem claim_C5_amended_witness :
    List.Perm ([CountryRow.mk "GB" 2 2, CountryRow.mk "DE" 1 1].map CountryRow.country)
      ((c5wF.rows.map QRow.country).dedup) ∧
    ([CountryRow.mk "GB" 2 2, CountryRow.mk "DE" 1 1].map CountryRow.questions).sum
      = c5wF.rows.length := by
  have h := claim_C5_amended c5wF [CountryRow.mk "GB" 2 2, CountryRow.mk "DE" 1 1] c5wF
    (by decide) (by rfl)
  exact ⟨h.1, h.2.2.2⟩

/-! ## Claim C6: aggregators and in-place mutation (corrected)

The claim says no core component mutates its input table.  In the source
`get_daily_metrics` executes `df['Date'] = ...` (app.py:45) and
`get_category_metrics` executes `df['Category'] = ...` (app.py:124), both
assigning a new column into the caller's frame; only
`get_country_metrics` leaves its input untouched.  In the embedding the
post-call state of the caller's frame is the second component of the
result. -/

/-- Counterexample to C6: on a well-formed one-row table, the daily
aggregator returns the input frame extended with a `Date` column, and the
category aggregator with a `Category` column — not the unchanged input. -/
theorem counterexample_C6 :
    Except.map (fun p => p.2.cols) (get_daily_metrics cex6F) = .ok (stdCols ++ ["Date"]) ∧
    Except.map (fun p => p.2.cols) (get_category_metrics cex6F)
      = .ok (stdCols ++ ["Category"]) ∧
    stdCols ++ ["Date"] ≠ cex6F.cols ∧
    stdCols ++ ["Category"] ≠ cex6F.cols :=
  ⟨by rfl, by rfl, by decide, by decide⟩

/-- C6 (amended): the country aggregator returns its input frame
unchanged; the daily aggregator adds a `Date` column to the input frame
in place, and the category aggregator adds a `Category` column in place,
so neither leaves its input unchanged. -/
theorem claim_C6_amended :
    (∀ f t f2, get_country_metrics f = .ok (t, f2) → f2 = f) ∧
    (∀ f t f2, "Date" ∉ f.cols → get_daily_metrics f = .ok (t, f2) →
      f2.cols = f.cols ++ ["Date"] ∧ f2 ≠ f) ∧
    (∀ f t f2, "Category" ∉ f.cols → get_category_metrics f = .ok (t, f2) →
      f2.cols = f.cols ++ ["Category"] ∧ f2 ≠ f) := by
  refine ⟨?_, ?_, ?_⟩
  · intro f t f2 hok
    unfold get_country_metrics at hok
    split at hok
    · split at hok
      · injection hok with hok
        rw [Prod.mk.injEq] at hok
        exact hok.2.symm
      · cases hok
    · cases hok
  · intro f t f2 hd hok
    unfold get_daily_metrics at hok
    rw [if_neg hd] at hok
    split at hok
    · split at hok
      · cases hok
      · rename_i ds hds
        dsimp only at hok
        split at hok
        · injection hok with hok
          rw [Prod.mk.injEq] at hok
          obtain ⟨-, hf2⟩ := hok
          subst hf2
          refine ⟨rfl, ?_⟩
          intro he
          have hlen := congrArg (fun fr => fr.cols.length) he
          simp at hlen
        · cases hok
    · cases hok
  · intro f t f2 hd hok
    have hcc : catColsAfter f.cols = f.cols ++ ["Category"] := by
      unfold catColsAfter
      exact if_neg hd
    unfold get_category_metrics at hok
    rw [hcc] at hok
    split at hok
    · split at hok
      · cases hok
      · dsimp only at hok
        split at hok
        · injection hok with hok
          rw [Prod.mk.injEq] at hok
          obtain ⟨-, hf2⟩ := hok
          subst hf2
          refine ⟨rfl, ?_⟩
          intro he
          have hlen := congrArg (fun fr => fr.cols.length) he
          simp at hlen
        · rename_i tt htt
          injection hok with hok
          rw [Prod.mk.injEq] at hok
          obtain ⟨-, hf2⟩ := hok
          subst hf2
          refine ⟨rfl, ?_⟩
          intro he
          have hlen := congrArg (fun fr => fr.cols.length) he
          simp at hlen
    · cases hok

/-- Witness for C6 (amended), instantiating the three parts at a concrete
one-row table. -/
theorem claim_C6_amended_witness :
    c6wF = c6wF ∧
    (Frame.mk (stdCols ++ ["Date"])
        [{ exRow 1 "March 05, 2023 14:30:00" "FR" (some "bonjour") with
           date := some 20230305 }]).cols = c6wF.cols ++ ["Date"] ∧
    (Frame.mk (stdCols ++ ["Category"])
        [{ exRow 1 "March 05, 2023 14:30:00" "FR" (some "bonjour") with
           category := some "Others" }]).cols = c6wF.cols ++ ["Category"] := by
  refine ⟨?_, ?_, ?_⟩
  · exact claim_C6_amended.1 c6wF [CountryRow.mk "FR" 1 1] c6wF (by rfl)
  · exact (claim_C6_amended.2.1 c6wF [DailyRow.mk 20230305 1 1] _ (by decide) (by rfl)).1
  · exact (claim_C6_amended.2.2 c6wF [CatRow.mk "Others" 1 "100.0%"] _ (by decide) (by rfl)).1

/-! ## Helper lemmas: category metrics -/

/-- The classifier only ever produces one of the six labels. -/
theorem classify_mem_labels (q : String) :
    analyze_question_category q ∈ categoryLabels := by
  unfold analyze_question_category
  dsimp only
  split_ifs <;> simp [categoryLabels]

/-- `filterMap` across a list whose images are all `some` keeps the
length. -/
theorem filterMap_length_of_isSome {α β : Type} (f : α → Option β) :
    ∀ l : List α, (∀ a ∈ l, (f a).isSome) → (l.filterMap f).length = l.length := by
  intro l
  induction l with
  | nil => intro _; rfl
  | cons a l ih =>
    intro h
    have ha := h a (by simp)
    cases hf : f a with
    | none => rw [hf] at ha; cases ha
    | some b =>
      rw [List.filterMap_cons, hf]
      simp only [List.length_cons]
      rw [ih (fun x hx => h x (by simp [hx]))]

/-- A duplicate-free list included in another list is no longer than it. -/
theorem nodup_subset_length_le {α : Type} [DecidableEq α] {l L : List α}
    (hnd : l.Nodup) (hsub : ∀ x ∈ l, x ∈ L) : l.length ≤ L.length := by
  have h1 : l.toFinset.card = l.length := List.toFinset_card_of_nodup hnd
  have h2 : l.toFinset ⊆ L.toFinset := by
    intro x hx
    rw [List.mem_toFinset] at hx ⊢
    exact hsub x hx
  calc l.length = l.toFinset.card := h1.symm
    _ ≤ L.toFinset.card := Finset.card_le_card h2
    _ ≤ L.length := L.toFinset_card_le

/-- Triangle inequality for list sums of rationals. -/
theorem list_abs_sum_le : ∀ l : List ℚ, |l.sum| ≤ (l.map (fun x => |x|)).sum := by
  intro l
  induction l with
  | nil => simp
  | cons a l ih =>
    simp only [List.sum_cons, List.map_cons]
    calc |a + l.sum| ≤ |a| + |l.sum| := abs_add _ _
      _ ≤ |a| + (l.map (fun x => |x|)).sum := by linarith

/-- Sum of a pointwise difference of two maps over one list. -/
theorem sum_map_sub (g h : ℕ → ℚ) :
    ∀ l : List ℕ, (l.map (fun c => g c - h c)).sum = (l.map g).sum - (l.map h).sum := by
  intro l
  induction l with
  | nil => simp
  | cons a l ih =>
    simp only [List.sum_cons, List.map_cons, ih]
    ring

/-- Sum of the exact percentage shares `100 * c / total`. -/
theorem sum_map_ratio (total : ℚ) :
    ∀ l : List ℕ, (l.map (fun c : ℕ => 100 * (c : ℚ) / total)).sum
      = 100 * (l.map (fun c : ℕ => (c : ℚ))).sum / total := by
  intro l
  induction l with
  | nil => simp
  | cons a l ih =>
    simp only [List.map_cons, List.sum_cons, ih]
    ring

/-- The rounded percentage (in hundredths) differs from the exact share
by at most half a hundredth. -/
theorem pctHundredths_close (c total : ℕ) (htot : 0 < total) :
    |((pctHundredths c total : ℕ) : ℚ) / 100 - 100 * (c : ℚ) / total| ≤ 1 / 200 := by
  unfold pctHundredths
  dsimp only
  have hdm : total * (10000 * c / total) + 10000 * c % total = 10000 * c :=
    Nat.div_add_mod _ _
  set q := 10000 * c / total with hq
  set r := 10000 * c % total with hr
  have hrlt : r < total := Nat.mod_lt _ htot
  have htotQ : (0 : ℚ) < total := by exact_mod_cast htot
  have hx : 100 * (c : ℚ) / total = ((q : ℚ) + (r : ℚ) / total) / 100 := by
    have hnum : ((10000 : ℚ) * c) = (total : ℚ) * q + r := by exact_mod_cast hdm.symm
    have h1 : ((q : ℚ) + (r : ℚ) / total) = (10000 * (c : ℚ)) / total := by
      rw [eq_div_iff (ne_of_gt htotQ)]
      rw [add_mul, div_mul_cancel₀ _ (ne_of_gt htotQ)]
      linarith [hnum]
    rw [h1]
    ring
  rw [hx]
  have hrle : (r : ℚ) / total ≤ 1 := by
    rw [div_le_one htotQ]
    exact_mod_cast le_of_lt hrlt
  split_ifs with h1 h2 h3
  · have h2r : 2 * (r : ℚ) < (total : ℚ) := by exact_mod_cast h1
    have hhalf : (r : ℚ) / total ≤ 1 / 2 := by
      rw [div_le_div_iff₀ htotQ (by norm_num)]
      linarith
    have hd : (q : ℚ) / 100 - ((q : ℚ) + (r : ℚ) / total) / 100
        = -((r : ℚ) / total / 100) := by ring
    rw [hd, abs_neg, abs_of_nonneg (by positivity)]
    linarith
  · have h2r : (total : ℚ) < 2 * r := by exact_mod_cast h2
    have hhalf : 1 / 2 ≤ (r : ℚ) / total := by
      rw [le_div_iff₀ htotQ]
      linarith
    have hd : (((q + 1 : ℕ)) : ℚ) / 100 - ((q : ℚ) + (r : ℚ) / total) / 100
        = (1 - (r : ℚ) / total) / 100 := by
      push_cast
      ring
    rw [hd, abs_of_nonneg (div_nonneg (by linarith) (by norm_num))]
    linarith
  · have htie : (total : ℚ) = 2 * r := by
      exact_mod_cast (by omega : total = 2 * r)
    have hhalf : (r : ℚ) / total = 1 / 2 := by
      rw [div_eq_iff (ne_of_gt htotQ)]
      linarith
    have hd : (q : ℚ) / 100 - ((q : ℚ) + (r : ℚ) / total) / 100
        = -((r : ℚ) / total / 100) := by ring
    rw [hd, abs_neg, abs_of_nonneg (by positivity), hhalf]
    norm_num
  · have htie : (total : ℚ) = 2 * r := by
      exact_mod_cast (by omega : total = 2 * r)
    have hhalf : (r : ℚ) / total = 1 / 2 := by
      rw [div_eq_iff (ne_of_gt htotQ)]
      linarith
    have hd : (((q + 1 : ℕ)) : ℚ) / 100 - ((q : ℚ) + (r : ℚ) / total) / 100
        = (1 - (r : ℚ) / total) / 100 := by
      push_cast
      ring
    rw [hd, hhalf]
    rw [abs_of_nonneg (by norm_num)]
    norm_num

/-- Everything claim C7 needs about the category summary construction,
for any category column of the right length over rows with non-null
questions. -/
theorem catMetricsOf_spec (rows : List QRow) (cats : List String)
    (hlen : cats.length = rows.length) (hne : rows ≠ [])
    (hq : ∀ r ∈ rows, r.question.isSome)
    (hlab : ∀ c ∈ cats, c ∈ categoryLabels) :
    List.Perm ((catMetricsOf rows cats).map CatRow.category) cats.dedup ∧
    (catMetricsOf rows cats).Pairwise (fun a b => b.count ≤ a.count) ∧
    ((catMetricsOf rows cats).map CatRow.count).sum = rows.length ∧
    ∃ ks : List ℕ,
      (catMetricsOf rows cats).map CatRow.percentage
        = ks.map (fun k => hundredthsStr k ++ "%") ∧
      |(ks.map (fun k : ℕ => (k : ℚ) / 100)).sum - 100| ≤ 1 / 10 := by
  have hN : 0 < rows.length := List.length_pos.mpr hne
  -- keys
  have hkperm : List.Perm (catKeys cats) cats.dedup := List.perm_insertionSort _ _
  have hknd : (catKeys cats).Nodup := hkperm.nodup_iff.mpr (List.nodup_dedup _)
  have hkmem : ∀ c ∈ cats, c ∈ catKeys cats := by
    intro c hc
    rw [hkperm.mem_iff, List.mem_dedup]
    exact hc
  -- rows2
  have hrows2_len : (catRows2 rows cats).length = rows.length := by
    unfold catRows2
    rw [List.length_map, List.length_zip, hlen]
    exact Nat.min_self _
  have hrows2_all : ∀ r2 ∈ catRows2 rows cats,
      r2.question.isSome ∧ ∃ c ∈ cats, r2.category = some c := by
    intro r2 hr2
    unfold catRows2 at hr2
    obtain ⟨p, hp, hr2e⟩ := List.mem_map.mp hr2
    obtain ⟨hp1, hp2⟩ := List.of_mem_zip hp
    subst hr2e
    exact ⟨hq p.1 hp1, p.2, hp2, rfl⟩
  -- count partition
  have hstep := countP_filter_partition (fun r => r.question.isSome) QRow.category
    (catRows2 rows cats) ((catKeys cats).map some)
    (hknd.map (Option.some_injective _))
    (by
      intro r2 hr2
      obtain ⟨-, c, hc, hcat⟩ := hrows2_all r2 hr2
      rw [hcat]
      exact List.mem_map_of_mem some (hkmem c hc))
  rw [List.map_map] at hstep
  rw [List.countP_eq_length.mpr (fun r2 hr2 => (hrows2_all r2 hr2).1), hrows2_len] at hstep
  have hcounts : ((catTbl rows cats).map (fun p => p.2)).sum = rows.length := by
    unfold catTbl
    rw [List.map_map]
    exact hstep
  have htot : catTotal rows cats = rows.length := hcounts
  -- category column of the output
  have hperm0 : List.Perm (catMetricsOf rows cats)
      ((catTbl rows cats).map (fun p =>
        CatRow.mk p.1 p.2 (pctString p.2 (catTotal rows cats)))) :=
    sortValsDesc_perm _ _
  have htblfst : ((catTbl rows cats).map (fun p =>
      CatRow.mk p.1 p.2 (pctString p.2 (catTotal rows cats)))).map CatRow.category
      = catKeys cats := by
    rw [List.map_map]
    unfold catTbl
    rw [List.map_map]
    exact List.map_id _
  have hcntperm : List.Perm ((catMetricsOf rows cats).map CatRow.count)
      ((catTbl rows cats).map (fun p => p.2)) := by
    refine (hperm0.map CatRow.count).trans ?_
    rw [List.map_map]
    exact List.Perm.refl _
  have hpct_row : ∀ row ∈ catMetricsOf rows cats,
      CatRow.percentage row = pctString row.count rows.length := by
    intro row hrow
    have hrow2 := hperm0.mem_iff.mp hrow
    obtain ⟨p, -, hrowe⟩ := List.mem_map.mp hrow2
    subst hrowe
    rw [← htot]
  refine ⟨?_, ?_, ?_, ?_⟩
  · refine (hperm0.map CatRow.category).trans ?_
    rw [htblfst]
    exact hkperm
  · exact sortValsDesc_pairwise_ge CatRow.count _
  · rw [hcntperm.sum_eq]
    exact hcounts
  · refine ⟨((catMetricsOf rows cats).map CatRow.count).map
      (fun c => pctHundredths c rows.length), ?_, ?_⟩
    · rw [List.map_map, List.map_map]
      apply List.map_congr_left
      intro row hrow
      rw [hpct_row row hrow]
      rfl
    · rw [List.map_map]
      rw [(hcntperm.map ((fun k : ℕ => (k : ℚ) / 100) ∘
        (fun c => pctHundredths c rows.length))).sum_eq]
      show |(((catTbl rows cats).map (fun p => p.2)).map
        (fun c : ℕ => ((pctHundredths c rows.length : ℕ) : ℚ) / 100)).sum - 100| ≤ 1 / 10
      have hsub : (((catTbl rows cats).map (fun p => p.2)).map
            (fun c : ℕ => ((pctHundredths c rows.length : ℕ) : ℚ) / 100)).sum - 100
          = (((catTbl rows cats).map (fun p => p.2)).map
            (fun c : ℕ => ((pctHundredths c rows.length : ℕ) : ℚ) / 100
              - 100 * (c : ℚ) / rows.length)).sum := by
        rw [sum_map_sub (fun c => ((pctHundredths c rows.length : ℕ) : ℚ) / 100)
          (fun c => 100 * (c : ℚ) / rows.length) ((catTbl rows cats).map (fun p => p.2))]
        have hratio := sum_map_ratio (rows.length : ℚ) ((catTbl rows cats).map (fun p => p.2))
        have hcast : (((catTbl rows cats).map (fun p => p.2)).map
            (fun c : ℕ => (c : ℚ))).sum = (rows.length : ℚ) := by
          rw [← Nat.cast_list_sum]
          exact_mod_cast congrArg (fun n : ℕ => (n : ℚ)) hcounts
        rw [hratio, hcast]
        have hNQ : ((rows.length : ℕ) : ℚ) ≠ 0 := by
          exact_mod_cast Nat.pos_iff_ne_zero.mp hN
        field_simp
      rw [hsub]
      have hlen6 : ((catTbl rows cats).map (fun p => p.2)).length ≤ 6 := by
        have h1 : ((catTbl rows cats).map (fun p => p.2)).length = (catKeys cats).length := by
          unfold catTbl
          rw [List.map_map, List.length_map]
        have h2 : (catKeys cats).length = cats.dedup.length := hkperm.length_eq
        have h3 : cats.dedup.length ≤ categoryLabels.length :=
          nodup_subset_length_le (List.nodup_dedup _)
            (fun x hx => hlab x (List.mem_dedup.mp hx))
        have h4 : categoryLabels.length = 6 := rfl
        omega
      have habs := list_abs_sum_le (((catTbl rows cats).map (fun p => p.2)).map
        (fun c : ℕ => ((pctHundredths c rows.length : ℕ) : ℚ) / 100
          - 100 * (c : ℚ) / rows.length))
      have hsle := List.sum_le_card_nsmul ((((catTbl rows cats).map (fun p => p.2)).map
        (fun c : ℕ => ((pctHundredths c rows.length : ℕ) : ℚ) / 100
          - 100 * (c : ℚ) / rows.length)).map (fun x => |x|)) (1 / 200)
        (by
          intro x hx
          rw [List.map_map] at hx
          obtain ⟨c, -, hce⟩ := List.mem_map.mp hx
          rw [← hce]
          exact pctHundredths_close c rows.length hN)
      have hlenm : ((((catTbl rows cats).map (fun p => p.2)).map
          (fun c : ℕ => ((pctHundredths c rows.length : ℕ) : ℚ) / 100
            - 100 * (c : ℚ) / rows.length)).map (fun x => |x|)).length
          = ((catTbl rows cats).map (fun p => p.2)).length := by
        rw [List.length_map, List.length_map]
      have hlen6Q : ((((catTbl rows cats).map (fun p => p.2)).map
          (fun c : ℕ => ((pctHundredths c rows.length : ℕ) : ℚ) / 100
            - 100 * (c : ℚ) / rows.length)).map (fun x => |x|)).length • ((1 : ℚ) / 200)
          ≤ 1 / 10 := by
        rw [hlenm, nsmul_eq_mul]
        have : (((catTbl rows cats).map (fun p => p.2)).length : ℚ) ≤ 6 := by
          exact_mod_cast hlen6
        linarith
      calc |(((catTbl rows cats).map (fun p => p.2)).map
            (fun c : ℕ => ((pctHundredths c rows.length : ℕ) : ℚ) / 100
              - 100 * (c : ℚ) / rows.length)).sum|
          ≤ ((((catTbl rows cats).map (fun p => p.2)).map
            (fun c : ℕ => ((pctHundredths c rows.length : ℕ) : ℚ) / 100
              - 100 * (c : ℚ) / rows.length)).map (fun x => |x|)).sum := habs
        _ ≤ _ := hsle
        _ ≤ 1 / 10 := hlen6Q

/-! ## Claim C7: category aggregator (corrected)

The claim asserts every `Percentage` value is formatted `"NN.NN%"` with
two decimal digits.  The source computes
`str(round(count / total * 100, 2)) + '%'` (app.py:127-128), and `str` of
a Python float drops trailing zeros: a single-row table yields
`"100.0%"`, with one decimal digit.  The remaining clauses hold for
non-empty tables whose questions are all non-null (a null question makes
the classifier raise `AttributeError` before any table is produced). -/

/-- Counterexample to C7: the single category gets `"100.0%"`, which has
one digit after the decimal point (suffix `".0%"` of length 3), while a
two-decimal `"NN.NN%"` rendering of one hundred percent would be
`"100.00%"` (suffix `".00%"` of length 4). -/
theorem counterexample_C7 :
    Except.map (fun p => p.1) (get_category_metrics cex7F)
      = .ok [CatRow.mk "Others" 1 "100.0%"] ∧
    ("100.0%".toList.dropWhile (fun c => c ≠ '.')).length = 3 :=
  ⟨by rfl, by rfl⟩

/-- C7 (amended): for every non-empty flat table whose questions are all
non-null, the category aggregator returns one row per category present
(the category column is a permutation of the distinct classifier outputs
over the questions), ordered by count non-increasing, with counts summing
to the input row count, and each `Percentage` equal to the shortest
decimal rendering of the rounded share followed by `%` (one or two
decimal digits, trailing hundredths zero dropped); the percentages,
parsed as numbers, sum to 100 within 0.1. -/
theorem claim_C7_amended (f : Frame) (t : List CatRow) (f2 : Frame)
    (hne : f.rows ≠ []) (hq : ∀ r ∈ f.rows, r.question.isSome)
    (hok : get_category_metrics f = .ok (t, f2)) :
    List.Perm (t.map CatRow.category)
      (((f.rows.filterMap QRow.question).map analyze_question_category).dedup) ∧
    t.Pairwise (fun a b => b.count ≤ a.count) ∧
    (t.map CatRow.count).sum = f.rows.length ∧
    ∃ ks : List ℕ, t.map CatRow.percentage = ks.map (fun k => hundredthsStr k ++ "%") ∧
      |(ks.map (fun k : ℕ => (k : ℚ) / 100)).sum - 100| ≤ 1 / 10 := by
  have hqs_len : (f.rows.filterMap (fun r => r.question)).length = f.rows.length :=
    filterMap_length_of_isSome _ f.rows hq
  have hqlen : 0 < (f.rows.filterMap (fun r => r.question)).length := by
    rw [hqs_len]
    exact List.length_pos.mpr hne
  unfold get_category_metrics at hok
  split at hok
  · split at hok
    · cases hok
    · dsimp only at hok
      split at hok
      · rename_i heq
        exfalso
        obtain ⟨t', hgl, -, -⟩ := batchLoop_last (f.rows.filterMap (fun r => r.question)) 250
          (by norm_num) (f.rows.filterMap (fun r => r.question)).length 0 [] (by omega) hqlen
        rw [show analyze_batch_questions (f.rows.filterMap (fun r => r.question)) 250
          = batchLoop (f.rows.filterMap (fun r => r.question)) 250
            (f.rows.filterMap (fun r => r.question)).length 0 [] from rfl] at heq
        rw [heq] at hgl
        cases hgl
      · rename_i tt htt
        injection hok with hok
        rw [Prod.mk.injEq] at hok
        obtain ⟨ht, -⟩ := hok
        subst ht
        have hcats : tt.2.2
            = (f.rows.filterMap (fun r => r.question)).map analyze_question_category := by
          obtain ⟨t', hgl, -, h2⟩ := batchLoop_last (f.rows.filterMap (fun r => r.question)) 250
            (by norm_num) (f.rows.filterMap (fun r => r.question)).length 0 [] (by omega) hqlen
          rw [show analyze_batch_questions (f.rows.filterMap (fun r => r.question)) 250
            = batchLoop (f.rows.filterMap (fun r => r.question)) 250
              (f.rows.filterMap (fun r => r.question)).length 0 [] from rfl] at htt
          rw [htt] at hgl
          injection hgl with he
          rw [← he] at h2
          simpa using h2
        have hspec := catMetricsOf_spec f.rows tt.2.2
          (by rw [hcats, List.length_map]; exact hqs_len) hne hq
          (by
            intro c hc
            rw [hcats] at hc
            obtain ⟨q, -, hqe⟩ := List.mem_map.mp hc
            rw [← hqe]
            exact classify_mem_labels q)
        rw [hcats] at hspec ⊢
        exact hspec
  · cases hok

/-- Witness for C7 (amended) at a concrete three-row table split 2:1 over
two categories. -/
theorem claim_C7_amended_witness :
    List.Perm ([CatRow.mk "Others" 2 "66.67%",
        CatRow.mk "What is / Define (Non branded)" 1 "33.33%"].map CatRow.category)
      (((c7wF.rows.filterMap QRow.question).map analyze_question_category).dedup) ∧
    ([CatRow.mk "Others" 2 "66.67%",
        CatRow.mk "What is / Define (Non branded)" 1 "33.33%"].map CatRow.count).sum
      = c7wF.rows.length := by
  have h := claim_C7_amended c7wF
    [CatRow.mk "Others" 2 "66.67%", CatRow.mk "What is / Define (Non branded)" 1 "33.33%"]
    ⟨stdCols ++ ["Category"],
      [{ exRow 1 "March 05, 2023 14:30:00" "US" (some "hello") with category := some "Others" },
       { exRow 2 "March 05, 2023 14:30:00" "US" (some "bye") with category := some "Others" },
       { exRow 3 "March 05, 2023 14:30:00" "US" (some "what is x") with
         category := some "What is / Define (Non branded)" }]⟩
    (by decide) (by decide) (by rfl)
  exact ⟨h.1, h.2.2.1⟩
